import Mathlib

/-!
Verification of the zoneout Pomodoro terminal application.

This file gives a shallow embedding of the program's core state machines
and settles the specification claims against it:

* `models/pomodoro.go` — the Pomodoro engine (`Pomodoro`, `NewPomodoro`,
  `Start`, `Pause`, `Resume`, `Stop`, `NextPhase`, `Tick`);
* `stats/stats.go` — the statistics record (`Stats`, `AddSession`);
* the audio player (`AudioPlayer`, `PlayMP3`, `Pause`, `Resume`, `Stop`,
  `ScanWhitenoiseDirectory`, `loadEmbeddedWhitenoise`,
  `NewAudioPlayerWithEmbed`);
* the TUI coordinator (`Model`, `updateAudioMode`, `handleKeyPress`,
  the `TickMsg` branch of `Update`).

Go `time.Duration` values are int64 nanosecond counts; they are embedded
as `Int` (all values involved are far below 2^63, so Go overflow cannot
occur on the inputs considered).  Wall-clock reads (`time.Now`) are
passed in as explicit parameters (`delta` for tick intervals, `today`
for the formatted local date).  Subprocess I/O is embedded by its effect
on the recorded player state: `PlayMP3` is modelled on its success path
(the path on which the claims speak); on the failure path the Go code
returns before touching `currentMP3`/`isPlaying`.
-/

/-- One minute in nanoseconds, the unit of Go `time.Duration` (`time.Minute`). -/
def minuteNs : Int := 60 * 1000000000

/-- Engine mode, from `models/pomodoro.go` (`ModeIdle`, `ModeFocus`, `ModeBreak`). -/
inductive Mode where
  | ModeIdle
  | ModeFocus
  | ModeBreak
deriving DecidableEq, Repr

/-- Session plan, from `models/pomodoro.go` (`Session` struct): focus and
break durations in nanoseconds and the number of sessions per cycle. -/
structure Session where
  FocusDuration : Int
  BreakDuration : Int
  TotalSessions : Int
deriving DecidableEq, Repr

/-- Engine state, from `models/pomodoro.go` (`Pomodoro` struct).  The Go
fields `LastTickTime` (a wall-clock sample), `audioPlayer`,
`startSoundPath` and `stopSoundPath` (sound-effect plumbing) carry no
state-machine information and are not embedded; sound-effect playback is
fire-and-forget and does not feed back into any state. -/
structure Pomodoro where
  CurrentMode : Mode
  Session : Session
  CurrentSession : Int
  RemainingTime : Int
  TotalTime : Int
  IsRunning : Bool
  IsPaused : Bool
  CompletedSessions : Int
deriving DecidableEq, Repr

/-- `NewPomodoro` from `models/pomodoro.go`: Idle engine with the fixed
25-minute focus / 5-minute break / 3-session plan. -/
def NewPomodoro : Pomodoro where
  CurrentMode := Mode.ModeIdle
  Session := { FocusDuration := 25 * minuteNs, BreakDuration := 5 * minuteNs, TotalSessions := 3 }
  CurrentSession := 0
  RemainingTime := 25 * minuteNs
  TotalTime := 25 * minuteNs
  IsRunning := false
  IsPaused := false
  CompletedSessions := 0

/-- `Start` from `models/pomodoro.go`: if Idle, enter Focus session 1 with a
full focus phase; in every case set `IsRunning` and clear `IsPaused`. -/
def Pomodoro.Start (p : Pomodoro) : Pomodoro :=
  let p1 :=
    if p.CurrentMode = Mode.ModeIdle then
      { p with CurrentMode := Mode.ModeFocus, CurrentSession := 1,
               RemainingTime := p.Session.FocusDuration, TotalTime := p.Session.FocusDuration }
    else p
  { p1 with IsRunning := true, IsPaused := false }

/-- `Pause` from `models/pomodoro.go`: unconditionally clears `IsRunning`
and sets `IsPaused` (there is no status guard in the source). -/
def Pomodoro.Pause (p : Pomodoro) : Pomodoro :=
  { p with IsRunning := false, IsPaused := true }

/-- `Resume` from `models/pomodoro.go`: only acts when `IsPaused`. -/
def Pomodoro.Resume (p : Pomodoro) : Pomodoro :=
  if p.IsPaused = true then { p with IsRunning := true, IsPaused := false } else p

/-- `Stop` from `models/pomodoro.go`: back to Idle with a fresh focus phase
loaded and all counters cleared (the reset-cycle semantics). -/
def Pomodoro.Stop (p : Pomodoro) : Pomodoro :=
  { p with IsRunning := false, IsPaused := false, CurrentMode := Mode.ModeIdle,
           CurrentSession := 0, RemainingTime := p.Session.FocusDuration,
           TotalTime := p.Session.FocusDuration, CompletedSessions := 0 }

/-- `NextPhase` from `models/pomodoro.go`.  Focus: count the completion and
load a full break.  Break: either finish the cycle (`Stop`, returning
`true`) when `CurrentSession >= TotalSessions`, or load a full focus phase
of the next session.  Idle: fall through, no change.  The `Bool` is the
Go return value (cycle finished). -/
def Pomodoro.NextPhase (p : Pomodoro) : Pomodoro × Bool :=
  if p.CurrentMode = Mode.ModeFocus then
    ({ p with CompletedSessions := p.CompletedSessions + 1, CurrentMode := Mode.ModeBreak,
              RemainingTime := p.Session.BreakDuration, TotalTime := p.Session.BreakDuration },
     false)
  else if p.CurrentMode = Mode.ModeBreak then
    if p.Session.TotalSessions ≤ p.CurrentSession then (p.Stop, true)
    else
      ({ p with CurrentSession := p.CurrentSession + 1, CurrentMode := Mode.ModeFocus,
                RemainingTime := p.Session.FocusDuration, TotalTime := p.Session.FocusDuration },
       false)
  else (p, false)

/-- `Tick` from `models/pomodoro.go`: no-op unless running; otherwise
subtract `delta` from `RemainingTime` and, when the result is `≤ 0`, run
`NextPhase` once.  The overflow below zero is discarded by `NextPhase`,
which loads the full duration of the next phase. -/
def Pomodoro.Tick (p : Pomodoro) (delta : Int) : Pomodoro × Bool :=
  if p.IsRunning = false then (p, false)
  else
    let q := { p with RemainingTime := p.RemainingTime - delta }
    if q.RemainingTime ≤ 0 then q.NextPhase else (q, false)

/-- Statistics record, from `stats/stats.go` (`Stats` struct); the backing
file path and mutex are I/O plumbing and are not embedded. -/
structure Stats where
  TotalSessions : Int
  TodaySessions : Int
  LastSessionDate : String
  TotalFocusMinutes : Int
deriving DecidableEq, Repr

/-- `AddSession` from `stats/stats.go`: reset `TodaySessions` when the
stored date differs from today, then increment both session counters, add
the focus minutes, and stamp today's date.  `today` stands for
`time.Now().Format("2006-01-02")`. -/
def Stats.AddSession (s : Stats) (today : String) (focusMinutes : Int) : Stats :=
  let s1 := if s.LastSessionDate ≠ today then { s with TodaySessions := 0 } else s
  { s1 with TotalSessions := s1.TotalSessions + 1, TodaySessions := s1.TodaySessions + 1,
            TotalFocusMinutes := s1.TotalFocusMinutes + focusMinutes,
            LastSessionDate := today }

/-- C1: the claim asserts tick-additivity (`Tick(delta)` equals
`Tick(d1); Tick(d2)` for every split `d1 + d2 = delta`), with overflow
carried across phase boundaries.  False: `NextPhase` loads the full next
phase and discards the overflow, so a split that crosses the boundary
ends with less remaining time than the single large tick.  Concretely,
from a freshly started engine `Tick(26min)` leaves a 5-minute break,
while `Tick(25min); Tick(1min)` leaves 4 minutes of it. -/
theorem C1_counterexample :
    (NewPomodoro.Start.Tick (26 * minuteNs)).1 ≠
      (((NewPomodoro.Start.Tick (25 * minuteNs)).1).Tick (1 * minuteNs)).1 := by
  decide

/-- C1 (amended): tick-additivity holds for a split whose first part does
not reach the phase boundary (`0 < RemainingTime - d1`); in general it
fails, because `Tick` performs at most one phase expiry per call and
resets the remaining time to the full next-phase duration, discarding the
overflow. -/
theorem C1_amended (p : Pomodoro) (d1 d2 : Int) (h1 : 0 ≤ d1) (h2 : 0 ≤ d2)
    (h : 0 < p.RemainingTime - d1) :
    p.Tick (d1 + d2) = ((p.Tick d1).1).Tick d2 := by
  unfold Pomodoro.Tick
  by_cases hr : p.IsRunning = false
  · simp [hr]
  · have hd1 : ¬ (p.RemainingTime - d1 ≤ 0) := by omega
    have hsub : p.RemainingTime - (d1 + d2) = p.RemainingTime - d1 - d2 := by ring
    simp [hr, hd1, hsub]

/-- C1 witness: a concrete instance of the amended additivity, splitting a
3-minute tick as 1 + 2 minutes inside the first focus phase. -/
theorem C1_witness :
    0 ≤ (1 * minuteNs) ∧ 0 ≤ (2 * minuteNs) ∧
      0 < NewPomodoro.Start.RemainingTime - 1 * minuteNs ∧
      NewPomodoro.Start.Tick (1 * minuteNs + 2 * minuteNs) =
        ((NewPomodoro.Start.Tick (1 * minuteNs)).1).Tick (2 * minuteNs) :=
  ⟨by decide, by decide, by decide,
    C1_amended NewPomodoro.Start (1 * minuteNs) (2 * minuteNs)
      (by decide) (by decide) (by decide)⟩

/-- C5: the claim asserts that `Pause` is a no-op from every non-Running
status.  False for status Stopped: the source `Pause` has no guard and
sets `IsPaused`, so on the freshly constructed (Stopped) engine it
changes the state. -/
theorem C5_counterexample :
    NewPomodoro.IsRunning = false ∧ NewPomodoro.Pause ≠ NewPomodoro := by
  decide

/-- C5 (amended): `Pause` always writes `IsRunning := false`,
`IsPaused := true` and touches nothing else; it is a state no-op exactly
when the engine is already Paused (`¬IsRunning ∧ IsPaused`).  In
particular `Pause` from Stopped is not a no-op: it moves the status to
Paused while every other field is unchanged. -/
theorem C5_amended (p : Pomodoro) :
    (p.Pause = p ↔ (p.IsRunning = false ∧ p.IsPaused = true))
    ∧ p.Pause.CurrentMode = p.CurrentMode
    ∧ p.Pause.Session = p.Session
    ∧ p.Pause.CurrentSession = p.CurrentSession
    ∧ p.Pause.RemainingTime = p.RemainingTime
    ∧ p.Pause.TotalTime = p.TotalTime
    ∧ p.Pause.CompletedSessions = p.CompletedSessions
    ∧ p.Pause.IsRunning = false
    ∧ p.Pause.IsPaused = true := by
  refine ⟨⟨fun hEq => ?_, fun hFlags => ?_⟩, ?_, ?_, ?_, ?_, ?_, ?_, ?_, ?_⟩
  · rw [← hEq]; exact ⟨rfl, rfl⟩
  · cases p; simp_all [Pomodoro.Pause]
  all_goals rfl

/-- C9: `AddSession` at a date different from the stored
`LastSessionDate` sets `TodaySessions` to exactly 1, increments
`TotalSessions` by 1, and stamps the new date. -/
theorem C9_addsession_new_day (st : Stats) (dNew : String) (mins : Int)
    (h : st.LastSessionDate ≠ dNew) :
    (st.AddSession dNew mins).TodaySessions = 1
    ∧ (st.AddSession dNew mins).TotalSessions = st.TotalSessions + 1
    ∧ (st.AddSession dNew mins).LastSessionDate = dNew := by
  simp [Stats.AddSession, h]

/-- C9 witness: a record last written on 2025-01-01 receiving a session
on 2025-01-02. -/
theorem C9_witness :
    (Stats.mk 5 2 "2025-01-01" 100).LastSessionDate ≠ "2025-01-02"
    ∧ ((Stats.mk 5 2 "2025-01-01" 100).AddSession "2025-01-02" 25).TodaySessions = 1
    ∧ ((Stats.mk 5 2 "2025-01-01" 100).AddSession "2025-01-02" 25).TotalSessions =
        (Stats.mk 5 2 "2025-01-01" 100).TotalSessions + 1
    ∧ ((Stats.mk 5 2 "2025-01-01" 100).AddSession "2025-01-02" 25).LastSessionDate =
        "2025-01-02" := by
  refine ⟨by decide, ?_⟩
  exact C9_addsession_new_day (Stats.mk 5 2 "2025-01-01" 100) "2025-01-02" 25 (by decide)

/-- Directory entry as seen by `os.ReadDir`: a name and whether it is a
directory. -/
structure DirEntry where
  name : String
  isDir : Bool
deriving DecidableEq, Repr

/-- Character list of a string lowered characterwise, embedding Go
`strings.ToLower` on the ASCII names involved. -/
def lowerChars (s : String) : List Char := s.data.map Char.toLower

/-- The scan filter from `ScanWhitenoiseDirectory`:
`strings.HasSuffix(strings.ToLower(name), ".mp3")`. -/
def isMP3Name (name : String) : Bool :=
  List.isSuffixOf ".mp3".data (lowerChars name)

/-- `filepath.Join(dir, name)` for the plain relative paths in play. -/
def joinPath (dir name : String) : String := dir ++ "/" ++ name

/-- Audio player state, from the audio package (`AudioPlayer` struct).
The live subprocess handle `currentCmd` is embedded as the flag `hasCmd`
(`currentCmd != nil`); the mutex is concurrency plumbing.  The detached
reaper goroutine spawned by `PlayMP3` only runs when the backend process
exits on its own, an external event outside the command sequences the
claims quantify over. -/
structure AudioPlayer where
  whitenoiseDir : String
  availableMP3s : List String
  currentMP3 : String
  isPlaying : Bool
  isPaused : Bool
  loopEnabled : Bool
  hasCmd : Bool
  embeddedTempFile : String
deriving DecidableEq, Repr

/-- The `AudioPlayer` literal built by `NewAudioPlayerWithEmbed` before
any asset loading: empty track list, `loopEnabled` set. -/
def initAudioPlayer (dir : String) : AudioPlayer where
  whitenoiseDir := dir
  availableMP3s := []
  currentMP3 := ""
  isPlaying := false
  isPaused := false
  loopEnabled := true
  hasCmd := false
  embeddedTempFile := ""

/-- `loadEmbeddedWhitenoise` on its success path: the embedded
`rain-and-thunder.mp3` is written to a scratch file whose name is
appended to `availableMP3s` and recorded in `embeddedTempFile`. -/
def AudioPlayer.loadEmbeddedWhitenoise (ap : AudioPlayer) (tmpName : String) : AudioPlayer :=
  { ap with availableMP3s := ap.availableMP3s ++ [tmpName], embeddedTempFile := tmpName }

/-- `ScanWhitenoiseDirectory` on a readable directory: the track list is
reset to the empty slice and then rebuilt from the non-directory entries
whose lowered name ends in `.mp3`, joined to the whitenoise directory, in
directory-entry order. -/
def AudioPlayer.ScanWhitenoiseDirectory (ap : AudioPlayer) (entries : List DirEntry) :
    AudioPlayer :=
  let found := (entries.filter (fun e => !e.isDir && isMP3Name e.name)).map
    (fun e => joinPath ap.whitenoiseDir e.name)
  { ap with availableMP3s := found }

/-- `NewAudioPlayerWithEmbed` with embedded assets present and a readable
user whitenoise directory: load the embedded track, then scan the user
directory. -/
def NewAudioPlayerWithEmbed (dir tmpName : String) (entries : List DirEntry) : AudioPlayer :=
  ((initAudioPlayer dir).loadEmbeddedWhitenoise tmpName).ScanWhitenoiseDirectory entries

/-- `PlayMP3` on its success path: any live playback is killed
(`currentCmd = nil`), the new backend process is started (`hasCmd`), the
selection and `isPlaying` are recorded.  The source never writes
`isPaused` here. -/
def AudioPlayer.PlayMP3 (ap : AudioPlayer) (filePath : String) : AudioPlayer :=
  { ap with hasCmd := true, currentMP3 := filePath, isPlaying := true }

/-- `Pause` from the audio package: only acts when a command handle is
live; signals the process and flips the flags.  `currentCmd` is not
cleared by the source. -/
def AudioPlayer.Pause (ap : AudioPlayer) : AudioPlayer :=
  if ap.hasCmd = true then { ap with isPaused := true, isPlaying := false } else ap

/-- `Resume` from the audio package: restart the remembered selection from
the top when paused.  The source never clears `isPaused` itself; it
delegates to `PlayMP3`, which does not touch it either. -/
def AudioPlayer.Resume (ap : AudioPlayer) : AudioPlayer :=
  if ap.isPaused = true ∧ ¬ ap.currentMP3 = "" then ap.PlayMP3 ap.currentMP3 else ap

/-- `Stop` from the audio package: kill any live playback and clear both
flags; `currentMP3` is retained. -/
def AudioPlayer.Stop (ap : AudioPlayer) : AudioPlayer :=
  { ap with hasCmd := false, isPlaying := false, isPaused := false }

/-- C4, code bug: with the embedded asset extracted and a readable user
directory holding `ocean.mp3`, the startup track list is only the user
file — `ScanWhitenoiseDirectory` resets `availableMP3s` and thereby drops
the embedded track appended just before, contradicting the constructor's
own fallback comments ("Otherwise, just use embedded") and the documented
embedded-first ordering. -/
theorem C4_embedded_track_dropped :
    (NewAudioPlayerWithEmbed "whitenoise" "/tmp/zoneout-whitenoise-1.mp3"
        [DirEntry.mk "ocean.mp3" false]).availableMP3s = ["whitenoise/ocean.mp3"]
    ∧ "/tmp/zoneout-whitenoise-1.mp3" ∉
        (NewAudioPlayerWithEmbed "whitenoise" "/tmp/zoneout-whitenoise-1.mp3"
          [DirEntry.mk "ocean.mp3" false]).availableMP3s := by
  decide

/-- C6: the claim asserts `is_paused = false` after every successful
`PlayTrack`, hence that the two flags are never simultaneously true.
False: `PlayMP3` never writes `isPaused`, so resuming from a paused
playback (which routes through `PlayMP3`) leaves both flags set. -/
theorem C6_counterexample :
    ((((initAudioPlayer "whitenoise").PlayMP3 "whitenoise/a.mp3").Pause).Resume).isPlaying = true
    ∧ ((((initAudioPlayer "whitenoise").PlayMP3 "whitenoise/a.mp3").Pause).Resume).isPaused
        = true := by
  decide

/-- C6 (amended): a successful `PlayTrack(t)` sets the selection to `t`
and `is_playing`, but leaves `is_paused` exactly as it was; the flags are
therefore not mutually exclusive — after `Resume` from a paused state
both are true.  Only `Pause` and `Stop` clear `is_playing`, and only
`Stop` clears both flags. -/
theorem C6_amended (ap : AudioPlayer) (t : String) :
    (ap.PlayMP3 t).currentMP3 = t
    ∧ (ap.PlayMP3 t).isPlaying = true
    ∧ (ap.PlayMP3 t).isPaused = ap.isPaused
    ∧ ap.Stop.isPlaying = false ∧ ap.Stop.isPaused = false := by
  refine ⟨rfl, rfl, rfl, rfl, rfl⟩

/-- Keystrokes handled by the coordinator (`handleKeyPress` in the ui
package): space, `R`, `r`, `>`, `a`, arrow up/down, enter, esc, `h`/`?`,
`m`, `+`/`=`, `-`/`_`, `q`/ctrl-c. -/
inductive Key where
  | space
  | keyR
  | keyr
  | skip
  | keya
  | up
  | down
  | enter
  | esc
  | keyh
  | keym
  | volUp
  | volDown
  | quit
deriving DecidableEq, Repr

/-- Coordinator state, from the ui package (`Model` struct).  The fields
`motdManager` (message provider), `appConfig` (volume persistence),
`lastTickTime` (wall-clock sample, replaced by the explicit `delta`
parameter of `tickStep`), `width` and `height` (render geometry) do not
feed the state machines the claims are about and are not embedded. -/
structure Model where
  pomodoro : Pomodoro
  audioPlayer : AudioPlayer
  appStats : Stats
  selectedMP3 : Int
  availableMP3s : List String
  showAudioMenu : Bool
  showHelp : Bool
  lastPhaseMode : Mode
deriving DecidableEq, Repr

/-- `NewModel` from the ui package: wires the components together, copies
the player's track list, and starts with every submenu closed. -/
def NewModel (p : Pomodoro) (ap : AudioPlayer) (st : Stats) : Model where
  pomodoro := p
  audioPlayer := ap
  appStats := st
  selectedMP3 := 0
  availableMP3s := ap.availableMP3s
  showAudioMenu := false
  showHelp := false
  lastPhaseMode := Mode.ModeIdle

/-- `updateAudioMode` from the ui package: in Focus with the engine
running and nothing playing, start the remembered track (or the first
one); in any other mode, pause a live playback. -/
def Model.updateAudioMode (m : Model) : Model :=
  if m.pomodoro.CurrentMode = Mode.ModeFocus then
    if m.audioPlayer.isPlaying = false ∧ m.pomodoro.IsRunning = true then
      if 0 < m.availableMP3s.length then
        if m.audioPlayer.currentMP3 = "" then
          { m with audioPlayer := m.audioPlayer.PlayMP3 (m.availableMP3s.headD "") }
        else
          { m with audioPlayer := m.audioPlayer.PlayMP3 m.audioPlayer.currentMP3 }
      else m
    else m
  else
    if m.audioPlayer.isPlaying = true then
      { m with audioPlayer := m.audioPlayer.Pause }
    else m

/-- `handleKeyPress` from the ui package (the revision with `R`, `r`,
help and volume keys).  The volume keys call `VolumeUp`/`VolumeDown`,
which change only the stored volume level, persist it via the config
store, and then restart the current track when one is playing; only that
restart touches the state embedded here. -/
def Model.handleKeyPress (m : Model) (k : Key) : Model :=
  match k with
  | Key.quit => { m with audioPlayer := m.audioPlayer.Stop }
  | Key.space =>
      if m.pomodoro.CurrentMode = Mode.ModeIdle then
        { m with pomodoro := m.pomodoro.Start }
      else if m.pomodoro.IsRunning = true ∧ m.pomodoro.IsPaused = false then
        { m with pomodoro := m.pomodoro.Pause, audioPlayer := m.audioPlayer.Pause }
      else if m.pomodoro.IsPaused = true then
        { m with pomodoro := m.pomodoro.Resume, audioPlayer := m.audioPlayer.Resume }
      else m
  | Key.keyR =>
      { m with pomodoro := m.pomodoro.Stop, audioPlayer := m.audioPlayer.Stop,
               showAudioMenu := false }
  | Key.keyr =>
      { m with pomodoro := { m.pomodoro with RemainingTime := m.pomodoro.TotalTime } }
  | Key.skip =>
      if m.pomodoro.IsRunning = true ∨ m.pomodoro.IsPaused = true then
        ({ m with pomodoro := (m.pomodoro.NextPhase).1 }).updateAudioMode
      else m
  | Key.keya =>
      if 0 < m.availableMP3s.length then { m with showAudioMenu := !m.showAudioMenu } else m
  | Key.up =>
      if m.showAudioMenu = true ∧ 0 < m.selectedMP3 then
        { m with selectedMP3 := m.selectedMP3 - 1 }
      else m
  | Key.down =>
      if m.showAudioMenu = true ∧ m.selectedMP3 < (m.availableMP3s.length : Int) - 1 then
        { m with selectedMP3 := m.selectedMP3 + 1 }
      else m
  | Key.enter =>
      if m.showAudioMenu = true ∧ 0 < m.availableMP3s.length then
        let selected := m.availableMP3s.getD m.selectedMP3.toNat ""
        { m with audioPlayer := m.audioPlayer.PlayMP3 selected, showAudioMenu := false }
      else m
  | Key.esc =>
      if m.showAudioMenu = true then { m with showAudioMenu := false }
      else if m.showHelp = true then { m with showHelp := false }
      else m
  | Key.keyh => { m with showHelp := !m.showHelp, showAudioMenu := false }
  | Key.keym => m
  | Key.volUp =>
      if m.audioPlayer.isPlaying = true ∧ ¬ m.audioPlayer.currentMP3 = "" then
        { m with audioPlayer := m.audioPlayer.PlayMP3 m.audioPlayer.currentMP3 }
      else m
  | Key.volDown =>
      if m.audioPlayer.isPlaying = true ∧ ¬ m.audioPlayer.currentMP3 = "" then
        { m with audioPlayer := m.audioPlayer.PlayMP3 m.audioPlayer.currentMP3 }
      else m

/-- The `TickMsg` branch of `Update` from the ui package.  `delta` is
`now - lastTickTime`; `today` is the formatted local date that
`AddSession` would read from the clock.  The returned list records the
argument of every `StatsStore.AddSession` call the branch makes (the
source passes the literal `25`).  The MOTD refresh at the top of the
branch touches only the message provider and is not embedded. -/
def Model.tickStep (m : Model) (delta : Int) (today : String) : Model × List Int :=
  if m.pomodoro.IsRunning = true then
    let previousMode := m.pomodoro.CurrentMode
    let tickResult := m.pomodoro.Tick delta
    let m1 := { m with pomodoro := tickResult.1 }
    let m2 := if tickResult.2 = true then { m1 with audioPlayer := m1.audioPlayer.Stop } else m1
    let addCalls : List Int :=
      if previousMode = Mode.ModeFocus ∧ m2.pomodoro.CurrentMode = Mode.ModeBreak then [25]
      else []
    let m3 :=
      if previousMode = Mode.ModeFocus ∧ m2.pomodoro.CurrentMode = Mode.ModeBreak then
        { m2 with appStats := m2.appStats.AddSession today 25 }
      else m2
    let m4 :=
      if ¬ m3.pomodoro.CurrentMode = Mode.ModeIdle then
        { m3 with lastPhaseMode := m3.pomodoro.CurrentMode }
      else m3
    (m4.updateAudioMode, addCalls)
  else (m, [])

/-- A host message delivered to the coordinator: a keystroke or a tick
(with its measured delta and the local date). -/
inductive Ev where
  | key (k : Key)
  | tick (delta : Int) (today : String)
deriving DecidableEq, Repr

/-- One `Update` dispatch on a host message. -/
def Model.stepEv (m : Model) (e : Ev) : Model :=
  match e with
  | Ev.key k => m.handleKeyPress k
  | Ev.tick d today => (m.tickStep d today).1

/-- A sequence of host messages processed in order. -/
def runEvents (m : Model) : List Ev → Model
  | [] => m
  | e :: es => runEvents (m.stepEv e) es

/-- The section-4.3 audio/engine invariant of the claim: live playback
only in Focus while running. -/
def AudioEngineInv (m : Model) : Prop :=
  m.audioPlayer.isPlaying = true →
    m.pomodoro.CurrentMode = Mode.ModeFocus ∧ m.pomodoro.IsRunning = true

theorem updateAudioMode_pomodoro (m : Model) : (m.updateAudioMode).pomodoro = m.pomodoro := by
  unfold Model.updateAudioMode
  repeat' split
  all_goals rfl

theorem updateAudioMode_appStats (m : Model) : (m.updateAudioMode).appStats = m.appStats := by
  unfold Model.updateAudioMode
  repeat' split
  all_goals rfl

theorem updateAudioMode_inv (m : Model)
    (hfr : m.pomodoro.CurrentMode = Mode.ModeFocus → m.pomodoro.IsRunning = true)
    (hcmd : m.audioPlayer.isPlaying = true → m.audioPlayer.hasCmd = true) :
    AudioEngineInv m.updateAudioMode := by
  unfold AudioEngineInv Model.updateAudioMode
  split
  case isTrue hFocus =>
    split
    case isTrue hcond =>
      split
      case isTrue hlen =>
        split
        · intro _; exact ⟨hFocus, hfr hFocus⟩
        · intro _; exact ⟨hFocus, hfr hFocus⟩
      case isFalse hlen => intro _; exact ⟨hFocus, hfr hFocus⟩
    case isFalse hcond => intro _; exact ⟨hFocus, hfr hFocus⟩
  case isFalse hFocus =>
    split
    case isTrue hplay =>
      intro hp
      exfalso
      have hc := hcmd hplay
      simp [AudioPlayer.Pause, hc] at hp
    case isFalse hplay =>
      intro hp
      exact absurd hp hplay

theorem tick_not_running (p : Pomodoro) (d : Int) (h : p.IsRunning = false) :
    p.Tick d = (p, false) := by
  unfold Pomodoro.Tick
  simp [h]

theorem tick_cases (p : Pomodoro) (d : Int) (hrun : p.IsRunning = true) :
    ((p.Tick d).2 = true ∧ (p.Tick d).1.CurrentMode = Mode.ModeIdle ∧
        (p.Tick d).1.IsRunning = false)
    ∨ ((p.Tick d).2 = false ∧ (p.Tick d).1.IsRunning = true) := by
  unfold Pomodoro.Tick Pomodoro.NextPhase Pomodoro.Stop
  simp [hrun]
  split
  · split
    · right; simp [hrun]
    · split
      · split
        · left; simp
        · right; simp [hrun]
      · right; simp [hrun]
  · right; simp [hrun]


instance (m : Model) : Decidable (AudioEngineInv m) :=
  inferInstanceAs (Decidable (_ → _ ∧ _))

/-- The coordinator state right after a startup in which the embedded
asset was extracted and the user whitenoise directory held `a.mp3`. -/
def demoStartModel : Model :=
  NewModel NewPomodoro
    (NewAudioPlayerWithEmbed "whitenoise" "/tmp/zoneout-whitenoise-1.mp3"
      [DirEntry.mk "a.mp3" false])
    (Stats.mk 0 0 "" 0)

/-- C3: the claim asserts that no reachable coordinator state has live
playback while the engine is not in Focus+Running.  False: the enter key
starts `PlayMP3` whenever the audio menu is open, with no engine guard
and no reconciliation, so opening the menu and selecting a track on the
freshly started (Idle) coordinator yields `is_playing` with the engine
Idle. -/
theorem C3_counterexample :
    ¬ AudioEngineInv (runEvents demoStartModel [Ev.key Key.keya, Ev.key Key.enter]) := by
  decide

/-- C3 (amended): the invariant `is_playing ⇒ Focus ∧ Running` is
restored by the audio reconciliation of every tick handled while the
engine is running (given the player-internal invariant that a live
`isPlaying` flag comes with a live process handle, which every audio
operation preserves); it is not maintained between reconciliations,
because the enter key can start playback in any engine mode with no
reconciliation following. -/
theorem C3_amended (m : Model) (d : Int) (today : String)
    (hrun : m.pomodoro.IsRunning = true)
    (hcmd : m.audioPlayer.isPlaying = true → m.audioPlayer.hasCmd = true) :
    AudioEngineInv (m.tickStep d today).1 := by
  unfold Model.tickStep
  simp only [hrun, if_true]
  apply updateAudioMode_inv
  · simp only [apply_ite Model.pomodoro, ite_self]
    rcases tick_cases m.pomodoro d hrun with ⟨_, hidle, _⟩ | ⟨_, hkeep⟩
    · intro hFocus
      rw [hidle] at hFocus
      exact absurd hFocus (by simp)
    · intro _
      exact hkeep
  · simp only [apply_ite Model.audioPlayer, apply_ite AudioPlayer.isPlaying,
      apply_ite AudioPlayer.hasCmd, ite_self]
    split
    · simp [AudioPlayer.Stop]
    · exact hcmd

/-- A running coordinator used to witness the tick-reconciliation
invariant. -/
def demoRunningModel : Model :=
  { demoStartModel with pomodoro := NewPomodoro.Start }

/-- C3 witness: the amended invariant at a concrete running coordinator. -/
theorem C3_witness :
    demoRunningModel.pomodoro.IsRunning = true
    ∧ (demoRunningModel.audioPlayer.isPlaying = true →
        demoRunningModel.audioPlayer.hasCmd = true)
    ∧ AudioEngineInv (demoRunningModel.tickStep minuteNs "2025-01-01").1 :=
  ⟨by decide, by decide,
    C3_amended demoRunningModel minuteNs "2025-01-01" (by decide) (by decide)⟩

/-- C7: the claim asserts that at the cycle-ending phase expiry — via
Tick or via Skip — the coordinator calls `Audio.Stop`.  False for the
Skip path: the `>` handler ignores `NextPhase`'s cycle-finished return
value and only reconciles, which pauses (not stops) the audio.  After a
reachable trace ending in a cycle-finishing skip, the player still holds
`isPaused` and a live command handle, which `Stop` would have cleared. -/
theorem C7_counterexample :
    (runEvents demoStartModel
        [Ev.key Key.space, Ev.tick 0 "2025-01-01", Ev.key Key.skip, Ev.key Key.skip,
         Ev.key Key.skip, Ev.key Key.skip, Ev.key Key.skip,
         Ev.key Key.skip]).pomodoro.CurrentMode = Mode.ModeIdle
    ∧ (runEvents demoStartModel
        [Ev.key Key.space, Ev.tick 0 "2025-01-01", Ev.key Key.skip, Ev.key Key.skip,
         Ev.key Key.skip, Ev.key Key.skip, Ev.key Key.skip,
         Ev.key Key.skip]).audioPlayer.isPaused = true
    ∧ (runEvents demoStartModel
        [Ev.key Key.space, Ev.tick 0 "2025-01-01", Ev.key Key.skip, Ev.key Key.skip,
         Ev.key Key.skip, Ev.key Key.skip, Ev.key Key.skip,
         Ev.key Key.skip]).audioPlayer.hasCmd = true := by
  decide

/-- C7 (amended): with `mode = Break` and `current_session_index ≥ N`,
the next phase expiry performs the ResetCycle semantics (`Stop`) and
signals completion; the coordinator calls `Audio.Stop` only when the
expiry happens through a tick — when it happens through the skip key the
completion signal is dropped and the reconciliation merely pauses a live
playback. -/
theorem C7_amended (m : Model) (d : Int) (today : String)
    (hmode : m.pomodoro.CurrentMode = Mode.ModeBreak)
    (hsess : m.pomodoro.Session.TotalSessions ≤ m.pomodoro.CurrentSession)
    (hrun : m.pomodoro.IsRunning = true)
    (hexp : m.pomodoro.RemainingTime - d ≤ 0) :
    m.pomodoro.NextPhase = (m.pomodoro.Stop, true)
    ∧ (m.tickStep d today).1.pomodoro = m.pomodoro.Stop
    ∧ (m.tickStep d today).1.audioPlayer.isPlaying = false
    ∧ (m.tickStep d today).1.audioPlayer.isPaused = false
    ∧ (m.tickStep d today).1.audioPlayer.hasCmd = false
    ∧ (m.handleKeyPress Key.skip).pomodoro = m.pomodoro.Stop
    ∧ (m.handleKeyPress Key.skip).audioPlayer =
        (if m.audioPlayer.isPlaying = true then m.audioPlayer.Pause else m.audioPlayer) := by
  have hnp : m.pomodoro.NextPhase = (m.pomodoro.Stop, true) := by
    unfold Pomodoro.NextPhase
    simp [hmode, hsess]
  have htick : m.pomodoro.Tick d = (m.pomodoro.Stop, true) := by
    unfold Pomodoro.Tick Pomodoro.NextPhase
    simp [hrun, hexp, hmode, hsess, Pomodoro.Stop]
  have hres : (m.tickStep d today).1 =
      { m with pomodoro := m.pomodoro.Stop, audioPlayer := m.audioPlayer.Stop } := by
    unfold Model.tickStep Model.updateAudioMode
    simp [hrun, htick, hmode, Pomodoro.Stop, AudioPlayer.Stop]
  have hskip : m.handleKeyPress Key.skip =
      Model.updateAudioMode { m with pomodoro := m.pomodoro.Stop } := by
    unfold Model.handleKeyPress
    simp [hrun, hnp]
  refine ⟨hnp, ?_, ?_, ?_, ?_, ?_, ?_⟩
  · rw [hres]
  · rw [hres]; rfl
  · rw [hres]; rfl
  · rw [hres]; rfl
  · rw [hskip, updateAudioMode_pomodoro]
  · rw [hskip]
    unfold Model.updateAudioMode
    simp [Pomodoro.Stop, apply_ite Model.audioPlayer]

/-- A running coordinator at the end of the last break of the cycle,
with a live ambient playback. -/
def demoCycleEndModel : Model :=
  let pEnd : Pomodoro :=
    { NewPomodoro with CurrentMode := Mode.ModeBreak, CurrentSession := 3,
                       RemainingTime := minuteNs, TotalTime := 5 * minuteNs,
                       IsRunning := true, CompletedSessions := 3 }
  let apEnd : AudioPlayer :=
    { demoStartModel.audioPlayer with currentMP3 := "whitenoise/a.mp3",
                                      isPlaying := true, hasCmd := true }
  { demoStartModel with pomodoro := pEnd, audioPlayer := apEnd }

/-- C7 witness: the amended statement at the concrete cycle-end state. -/
theorem C7_witness :
    demoCycleEndModel.pomodoro.CurrentMode = Mode.ModeBreak
    ∧ demoCycleEndModel.pomodoro.Session.TotalSessions ≤
        demoCycleEndModel.pomodoro.CurrentSession
    ∧ demoCycleEndModel.pomodoro.IsRunning = true
    ∧ demoCycleEndModel.pomodoro.RemainingTime - minuteNs ≤ 0
    ∧ (demoCycleEndModel.tickStep minuteNs "2025-01-01").1.pomodoro =
        demoCycleEndModel.pomodoro.Stop :=
  ⟨by decide, by decide, by decide, by decide,
    (C7_amended demoCycleEndModel minuteNs "2025-01-01"
      (by decide) (by decide) (by decide) (by decide)).2.1⟩

/-- C8: a tick whose transition contains a focus-phase completion (the
engine moves Focus→Break during the tick) makes exactly one
`StatsStore.AddSession` call, and its argument — the source literal
`25` — equals the configured focus duration expressed in minutes; a tick
with no focus completion makes none. -/
theorem C8_focus_completion_stats (m : Model) (d : Int) (today : String)
    (hfocus : m.pomodoro.Session.FocusDuration = 25 * minuteNs) :
    (m.tickStep d today).2 =
      (if m.pomodoro.IsRunning = true ∧ m.pomodoro.CurrentMode = Mode.ModeFocus ∧
          (m.pomodoro.Tick d).1.CurrentMode = Mode.ModeBreak
        then [m.pomodoro.Session.FocusDuration / minuteNs] else [])
    ∧ (m.tickStep d today).1.appStats =
      (if m.pomodoro.IsRunning = true ∧ m.pomodoro.CurrentMode = Mode.ModeFocus ∧
          (m.pomodoro.Tick d).1.CurrentMode = Mode.ModeBreak
        then m.appStats.AddSession today (m.pomodoro.Session.FocusDuration / minuteNs)
        else m.appStats) := by
  have h25 : m.pomodoro.Session.FocusDuration / minuteNs = 25 := by
    rw [hfocus]; decide
  rw [h25]
  by_cases hrun : m.pomodoro.IsRunning = true
  · unfold Model.tickStep
    simp only [hrun, if_true, true_and]
    constructor
    · simp only [apply_ite Model.pomodoro, ite_self]
    · simp only [updateAudioMode_appStats, apply_ite Model.appStats,
        apply_ite Model.pomodoro, ite_self]
  · have hrunF : m.pomodoro.IsRunning = false := by
      revert hrun; cases m.pomodoro.IsRunning <;> simp
    unfold Model.tickStep
    simp [hrunF]

/-- A running coordinator one minute before the end of a focus phase. -/
def demoFocusEndModel : Model :=
  { demoStartModel with pomodoro := { NewPomodoro.Start with RemainingTime := minuteNs } }

/-- C8 witness: a tick that completes the focus phase produces exactly
one AddSession call with 25 minutes. -/
theorem C8_witness :
    demoFocusEndModel.pomodoro.Session.FocusDuration = 25 * minuteNs
    ∧ (demoFocusEndModel.tickStep (2 * minuteNs) "2025-01-01").2 =
      (if demoFocusEndModel.pomodoro.IsRunning = true ∧
          demoFocusEndModel.pomodoro.CurrentMode = Mode.ModeFocus ∧
          (demoFocusEndModel.pomodoro.Tick (2 * minuteNs)).1.CurrentMode = Mode.ModeBreak
        then [demoFocusEndModel.pomodoro.Session.FocusDuration / minuteNs] else []) :=
  ⟨by decide,
    (C8_focus_completion_stats demoFocusEndModel (2 * minuteNs) "2025-01-01" (by decide)).1⟩

/-- C10: no keystroke — in particular the skip key `>` — ever touches the
statistics store: `handleKeyPress` leaves `appStats` (total, today and
focus-minute counters) unchanged for every key and every coordinator
state, so a focus phase ended by Skip is never counted; `AddSession` is
reachable only from the `TickMsg` branch. -/
theorem C10_keys_never_touch_stats (m : Model) (k : Key) :
    (m.handleKeyPress k).appStats = m.appStats := by
  cases k <;> unfold Model.handleKeyPress <;>
    (repeat' split) <;> simp [updateAudioMode_appStats]

/-- An engine command of the claim: Start, Pause, Resume, ResetSession,
ResetCycle, Skip, Tick.  ResetSession is the coordinator's `r` handler
(`RemainingTime = TotalTime`); ResetCycle is the engine `Stop`; Skip is
the engine `NextPhase` (its return value unused by the caller). -/
inductive Cmd where
  | start
  | pause
  | resume
  | resetSession
  | resetCycle
  | skip
  | tick (delta : Int)
deriving DecidableEq, Repr

/-- The state reached by one engine command. -/
def Pomodoro.exec (p : Pomodoro) : Cmd → Pomodoro
  | Cmd.start => p.Start
  | Cmd.pause => p.Pause
  | Cmd.resume => p.Resume
  | Cmd.resetSession => { p with RemainingTime := p.TotalTime }
  | Cmd.resetCycle => p.Stop
  | Cmd.skip => (p.NextPhase).1
  | Cmd.tick d => (p.Tick d).1

/-- Guard under which the coordinator issues a command: `Pause` only while
Running (the space key pauses only a running engine) and tick deltas
nonnegative (the clock is sampled monotonically).  Every other command is
issued unconditionally. -/
def okCmd (p : Pomodoro) : Cmd → Bool
  | Cmd.pause => p.IsRunning
  | Cmd.tick d => decide (0 ≤ d)
  | _ => true

/-- A command list each of whose commands respects `okCmd` in the state
where it runs.  Every prefix of a valid run is itself a valid run. -/
def validRun (p : Pomodoro) : List Cmd → Bool
  | [] => true
  | c :: cs => okCmd p c && validRun (p.exec c) cs

/-- The state after a command list. -/
def runCmds (p : Pomodoro) : List Cmd → Pomodoro
  | [] => p
  | c :: cs => runCmds (p.exec c) cs

/-- The section-3 state invariants of the spec, together with the facts
needed to carry them inductively: the session plan is the immutable
`NewPomodoro` plan; Stopped (both flags clear) iff Idle iff session index
zero; the flags are mutually exclusive; `0 ≤ RemainingTime ≤ TotalTime`;
the phase total matches the mode's configured duration; the completed
count is one less than the session index inside Focus, equal to it inside
Break, zero when Idle; the session index lies in `[0, N]`. -/
def EngineInv (p : Pomodoro) : Prop :=
  p.Session = NewPomodoro.Session
  ∧ ((p.IsRunning = false ∧ p.IsPaused = false) ↔ p.CurrentMode = Mode.ModeIdle)
  ∧ (p.CurrentMode = Mode.ModeIdle ↔ p.CurrentSession = 0)
  ∧ ¬(p.IsRunning = true ∧ p.IsPaused = true)
  ∧ 0 ≤ p.RemainingTime
  ∧ p.RemainingTime ≤ p.TotalTime
  ∧ (p.CurrentMode = Mode.ModeFocus → p.TotalTime = p.Session.FocusDuration)
  ∧ (p.CurrentMode = Mode.ModeBreak → p.TotalTime = p.Session.BreakDuration)
  ∧ (p.CurrentMode = Mode.ModeIdle →
      p.TotalTime = p.Session.FocusDuration ∧ p.CompletedSessions = 0)
  ∧ (p.CurrentMode = Mode.ModeFocus → p.CompletedSessions = p.CurrentSession - 1)
  ∧ (p.CurrentMode = Mode.ModeBreak → p.CompletedSessions = p.CurrentSession)
  ∧ p.CompletedSessions ≤ p.CurrentSession
  ∧ 0 ≤ p.CurrentSession
  ∧ p.CurrentSession ≤ p.Session.TotalSessions

instance (p : Pomodoro) : Decidable (EngineInv p) :=
  inferInstanceAs (Decidable (_ ∧ _))


theorem stop_inv (p : Pomodoro) (hplan : p.Session = NewPomodoro.Session) :
    EngineInv p.Stop := by
  have hF0 : (0:Int) ≤ NewPomodoro.Session.FocusDuration := by decide
  have hN3 : NewPomodoro.Session.TotalSessions = 3 := rfl
  unfold EngineInv Pomodoro.Stop
  simp [hplan]
  omega

theorem nextPhase_inv (p : Pomodoro)
    (hplan : p.Session = NewPomodoro.Session)
    (hbic : (p.IsRunning = false ∧ p.IsPaused = false) ↔ p.CurrentMode = Mode.ModeIdle)
    (hsess0 : p.CurrentMode = Mode.ModeIdle ↔ p.CurrentSession = 0)
    (hnotboth : ¬(p.IsRunning = true ∧ p.IsPaused = true))
    (hCF : p.CurrentMode = Mode.ModeFocus → p.CompletedSessions = p.CurrentSession - 1)
    (hCB : p.CurrentMode = Mode.ModeBreak → p.CompletedSessions = p.CurrentSession)
    (hs0 : 0 ≤ p.CurrentSession)
    (hsN : p.CurrentSession ≤ p.Session.TotalSessions)
    (hmode : ¬ p.CurrentMode = Mode.ModeIdle) :
    EngineInv (p.NextPhase).1 := by
  have hB0 : (0:Int) ≤ NewPomodoro.Session.BreakDuration := by decide
  have hF0 : (0:Int) ≤ NewPomodoro.Session.FocusDuration := by decide
  have hN3 : NewPomodoro.Session.TotalSessions = 3 := rfl
  rw [hplan] at hsN
  have hflags : ¬ (p.IsRunning = false ∧ p.IsPaused = false) := fun hf => hmode (hbic.mp hf)
  have hsne : ¬ p.CurrentSession = 0 := fun hz => hmode (hsess0.mpr hz)
  rcases hm : p.CurrentMode with _ | _ | _
  · exact absurd hm hmode
  · -- Focus: switch to Break
    have hcomp := hCF hm
    unfold Pomodoro.NextPhase
    simp only [hm]
    unfold EngineInv
    simp [hplan, hflags, hsne, hnotboth, hcomp]
    omega
  · -- Break: cycle end or next focus
    have hcomp := hCB hm
    unfold Pomodoro.NextPhase
    by_cases hc : p.Session.TotalSessions ≤ p.CurrentSession
    · simpa [hm, hc] using stop_inv p hplan
    · rw [hplan] at hc
      unfold EngineInv
      simp [hm, hplan, hc, hflags, hnotboth, hcomp]
      omega

theorem execPreservesInv (p : Pomodoro) (c : Cmd)
    (hInv : EngineInv p) (hok : okCmd p c = true) : EngineInv (p.exec c) := by
  obtain ⟨hplan, hbic, hsess0, hnotboth, hrem0, hremT, hTF, hTB, hTI, hCF, hCB, hCle, hs0,
    hsN⟩ := id hInv
  have hB0 : (0:Int) ≤ NewPomodoro.Session.BreakDuration := by decide
  have hF0 : (0:Int) ≤ NewPomodoro.Session.FocusDuration := by decide
  have hN3 : NewPomodoro.Session.TotalSessions = 3 := rfl
  cases c
  case start =>
    by_cases hm : p.CurrentMode = Mode.ModeIdle
    · obtain ⟨hTI1, hTI2⟩ := hTI hm
      have heq : p.exec Cmd.start =
          { p with CurrentMode := Mode.ModeFocus, CurrentSession := 1,
                   RemainingTime := p.Session.FocusDuration,
                   TotalTime := p.Session.FocusDuration,
                   IsRunning := true, IsPaused := false } := by
        unfold Pomodoro.exec Pomodoro.Start
        simp [hm]
      rw [heq]
      unfold EngineInv
      simp [hplan, hTI2]
      omega
    · have heq : p.exec Cmd.start = { p with IsRunning := true, IsPaused := false } := by
        unfold Pomodoro.exec Pomodoro.Start
        simp [hm]
      rw [heq]
      exact ⟨hplan, by simp [hm], hsess0, by simp, hrem0, hremT, hTF, hTB,
        fun hmm => absurd hmm hm, hCF, hCB, hCle, hs0, hsN⟩
  case pause =>
    have hrT : p.IsRunning = true := hok
    have hmne : ¬ p.CurrentMode = Mode.ModeIdle := by
      intro hm
      have := (hbic.mpr hm).1
      simp_all
    show EngineInv { p with IsRunning := false, IsPaused := true }
    exact ⟨hplan, by simp [hmne], hsess0, by simp, hrem0, hremT, hTF, hTB,
      fun hmm => absurd hmm hmne, hCF, hCB, hCle, hs0, hsN⟩
  case resume =>
    by_cases hp : p.IsPaused = true
    · have hmne : ¬ p.CurrentMode = Mode.ModeIdle := by
        intro hm
        have := (hbic.mpr hm).2
        simp_all
      have heq : p.exec Cmd.resume = { p with IsRunning := true, IsPaused := false } := by
        unfold Pomodoro.exec Pomodoro.Resume
        simp [hp]
      rw [heq]
      exact ⟨hplan, by simp [hmne], hsess0, by simp, hrem0, hremT, hTF, hTB,
        fun hmm => absurd hmm hmne, hCF, hCB, hCle, hs0, hsN⟩
    · unfold Pomodoro.exec Pomodoro.Resume
      simp only [hp, if_false]
      exact hInv
  case resetSession =>
    have h0T : 0 ≤ p.TotalTime := by
      rcases hm2 : p.CurrentMode with _ | _ | _
      · rw [(hTI hm2).1, hplan]; exact hF0
      · rw [hTF hm2, hplan]; exact hF0
      · rw [hTB hm2, hplan]; exact hB0
    exact ⟨hplan, hbic, hsess0, hnotboth, h0T, le_refl _, hTF, hTB,
      fun hm => ⟨(hTI hm).1, (hTI hm).2⟩, hCF, hCB, hCle, hs0, hsN⟩
  case resetCycle =>
    exact stop_inv p hplan
  case skip =>
    by_cases hm : p.CurrentMode = Mode.ModeIdle
    · unfold Pomodoro.exec Pomodoro.NextPhase
      simp [hm]
      exact hInv
    · exact nextPhase_inv p hplan hbic hsess0 hnotboth hCF hCB hs0 hsN hm
  case tick d =>
    have hd : 0 ≤ d := of_decide_eq_true hok
    by_cases hr : p.IsRunning = false
    · unfold Pomodoro.exec Pomodoro.Tick
      simp only [hr, if_true]
      exact hInv
    · have hmne : ¬ p.CurrentMode = Mode.ModeIdle := by
        intro hm
        exact hr (hbic.mpr hm).1
      have hrT : p.IsRunning = true := by
        revert hr; cases p.IsRunning <;> simp
      by_cases hq : p.RemainingTime - d ≤ 0
      · have heq : p.exec (Cmd.tick d) =
            ({ p with RemainingTime := p.RemainingTime - d }).NextPhase.1 := by
          unfold Pomodoro.exec Pomodoro.Tick
          simp [hrT, hq]
        rw [heq]
        exact nextPhase_inv { p with RemainingTime := p.RemainingTime - d }
          hplan hbic hsess0 hnotboth hCF hCB hs0 hsN hmne
      · have heq : p.exec (Cmd.tick d) = { p with RemainingTime := p.RemainingTime - d } := by
          unfold Pomodoro.exec Pomodoro.Tick
          simp [hrT, hq]
        rw [heq]
        exact ⟨hplan, hbic, hsess0, hnotboth,
          (show (0:Int) ≤ p.RemainingTime - d by omega),
          (show p.RemainingTime - d ≤ p.TotalTime by omega), hTF, hTB,
          fun hm => ⟨(hTI hm).1, (hTI hm).2⟩, hCF, hCB, hCle, hs0, hsN⟩

theorem runPreservesInv (p : Pomodoro) (cmds : List Cmd) (hInv : EngineInv p)
    (hvalid : validRun p cmds = true) : EngineInv (runCmds p cmds) := by
  induction cmds generalizing p with
  | nil => exact hInv
  | cons c cs ih =>
      rw [validRun, Bool.and_eq_true] at hvalid
      exact ih (p.exec c) (execPreservesInv p c hInv hvalid.1) hvalid.2

/-- C2: the claim asserts the §3 invariants — in particular
`status = Stopped ⇔ mode = Idle ⇔ current_session_index = 0` — after
every engine command sequence from a fresh engine.  False: `Pause` has no
status guard, so the single command `Pause` on the fresh (Stopped, Idle)
engine yields status Paused while the mode is still Idle and the session
index 0, breaking the first biconditional. -/
theorem C2_counterexample :
    (runCmds NewPomodoro [Cmd.pause]).CurrentMode = Mode.ModeIdle
    ∧ (runCmds NewPomodoro [Cmd.pause]).CurrentSession = 0
    ∧ ¬ (((runCmds NewPomodoro [Cmd.pause]).IsRunning = false ∧
          (runCmds NewPomodoro [Cmd.pause]).IsPaused = false) ↔
        (runCmds NewPomodoro [Cmd.pause]).CurrentMode = Mode.ModeIdle) := by
  decide

/-- C2 (amended): the §3 invariants hold after every command of every
sequence from the fresh engine in which `Pause` is only issued while the
engine is Running (exactly how the coordinator issues it: the space key
pauses only a running engine) and tick deltas are nonnegative.  Since
every prefix of a valid run is valid, this gives the invariants after
each command.  The restriction on `Pause` is forced: the unguarded
source `Pause` breaks the Stopped⇔Idle biconditional from the Stopped
state. -/
theorem C2_amended (cmds : List Cmd) (hvalid : validRun NewPomodoro cmds = true) :
    EngineInv (runCmds NewPomodoro cmds) :=
  runPreservesInv NewPomodoro cmds (by decide) hvalid

/-- C2 witness: a concrete valid run exercising every command. -/
theorem C2_witness :
    validRun NewPomodoro
        [Cmd.start, Cmd.tick (10 * minuteNs), Cmd.pause, Cmd.resume, Cmd.skip,
         Cmd.resetSession, Cmd.tick (30 * minuteNs), Cmd.skip, Cmd.resetCycle] = true
    ∧ EngineInv (runCmds NewPomodoro
        [Cmd.start, Cmd.tick (10 * minuteNs), Cmd.pause, Cmd.resume, Cmd.skip,
         Cmd.resetSession, Cmd.tick (30 * minuteNs), Cmd.skip, Cmd.resetCycle]) :=
  ⟨by decide,
    C2_amended
      [Cmd.start, Cmd.tick (10 * minuteNs), Cmd.pause, Cmd.resume, Cmd.skip,
       Cmd.resetSession, Cmd.tick (30 * minuteNs), Cmd.skip, Cmd.resetCycle]
      (by decide)⟩
